import Mathlib

/-!
Verification of the screen-recorder core: the client-side upload queue
(`processQueue` in `src/frontend/src/App.js`) with retry/backoff, and the
capture session (`startRecording`, `startStream`, `stopRecording`,
`handleDataAvailable`), together with the backend upload route
(`app.post('/upload')`).

The upload queue is modelled twice, at two granularities:

* `drainQueue` — a denotational model of the drain loop: given the sequence of
  environment observations (connectivity at each drain invocation, outcome of
  each transfer attempt) it computes the emitted event trace and the remaining
  processing queue.  This serves the trace properties (retry ceiling, FIFO,
  connectivity deferral, backoff).
* `Step` / `Reachable` — a small-step transition system at the granularity of
  the suspension points of the JavaScript event loop, with the `isUploadingRef`
  in-flight flag and the observable status list explicit.  This serves the
  mutual-exclusion invariant.
-/

namespace Screen

/-! ## Constants (src/frontend/src/App.js, lines 8, 9, 125, 150) -/

/-- `const CHUNK_DURATION = 300000` (App.js line 8). -/
def CHUNK_DURATION : Nat := 300000

/-- `const MAX_RETRIES = 3` (App.js line 9). -/
def MAX_RETRIES : Nat := 3

/-- The fixed re-poll interval of `setTimeout(processQueue, 5000)`
(App.js line 125). -/
def OFFLINE_POLL_MS : Nat := 5000

/-- `1000 * Math.pow(2, retries)` — the backoff wait of App.js line 150,
in milliseconds, as a function of the (already incremented) retry count. -/
def backoffDelay (n : Nat) : Nat := 1000 * 2 ^ n

/-! ## Upload queue: denotational drain model -/

/-- A chunk as it sits in `uploadQueueRef.current`: its identifier and its
mutable `retries` counter (App.js lines 107-113; the payload and filename do
not influence queue control flow). -/
structure Chunk where
  id : Nat
  retries : Nat
deriving DecidableEq

/-- One environment observation consumed by one invocation of `processQueue`:
either `navigator.onLine` is `false` at that invocation, or it is `true` and
the transfer attempt started by that invocation resolves with outcome `ok`
(`true` = HTTP 2xx, axios resolves; `false` = axios rejects). -/
inductive EnvStep
  | offline
  | attempt (ok : Bool)
deriving DecidableEq

/-- Observable events emitted while draining, in program order. -/
inductive Event
  | deferOffline (i : Nat) (pollMs : Nat)
  | startAttempt (i : Nat)
  | retryWait (i : Nat) (n : Nat) (waitMs : Nat)
  | completed (i : Nat)
  | failed (i : Nat)
deriving DecidableEq

/-- The chunk id an event concerns. -/
def eventId : Event → Nat
  | .deferOffline i _ => i
  | .startAttempt i => i
  | .retryWait i _ _ => i
  | .completed i => i
  | .failed i => i

/-- Denotation of the `processQueue` drain loop (App.js lines 121-159) on a
fixed queue.  Each invocation first returns if the queue is empty (line 122);
otherwise, if `navigator.onLine` is false it defers via
`setTimeout(processQueue, 5000)` without touching the head (lines 124-127);
otherwise it marks the head `uploading` and performs the transfer
(`startAttempt`).  On success it marks `completed` and shifts (lines 143-144);
on failure with `retries < MAX_RETRIES` it increments `retries`, marks
`retry (n)`, waits `1000 * 2^retries` ms and leaves the chunk at the head
(lines 147-150); otherwise it marks `failed` and shifts (lines 152-153).  The
`finally` block then re-invokes the loop (lines 155-158), here the recursive
call. -/
def drainQueue : List EnvStep → List Chunk → List Event × List Chunk
  | _, [] => ([], [])
  | [], c :: q => ([], c :: q)
  | .offline :: env, c :: q =>
    let r := drainQueue env (c :: q)
    (.deferOffline c.id OFFLINE_POLL_MS :: r.1, r.2)
  | .attempt true :: env, c :: q =>
    let r := drainQueue env q
    (.startAttempt c.id :: .completed c.id :: r.1, r.2)
  | .attempt false :: env, c :: q =>
    if c.retries < MAX_RETRIES then
      let r := drainQueue env ({ c with retries := c.retries + 1 } :: q)
      (.startAttempt c.id :: .retryWait c.id (c.retries + 1)
        (backoffDelay (c.retries + 1)) :: r.1, r.2)
    else
      let r := drainQueue env q
      (.startAttempt c.id :: .failed c.id :: r.1, r.2)

/-- Number of transfer attempts recorded for chunk id `i` in an event trace. -/
def countStartAttempts (i : Nat) : List Event → Nat
  | [] => 0
  | .startAttempt j :: es => (if j = i then 1 else 0) + countStartAttempts i es
  | _ :: es => countStartAttempts i es

/-! ## Upload queue: small-step model with the in-flight flag -/

/-- The status values written by `updateChunkStatus` (App.js lines 111, 131,
143, 149, 152). -/
inductive Status
  | pending
  | uploading
  | retry (n : Nat)
  | completed
  | failed
deriving DecidableEq

/-- `updateChunkStatus` (App.js lines 161-165): map over the observable list,
replacing the status of every entry whose id matches. -/
def updateChunkStatus (l : List (Nat × Status)) (i : Nat) (st : Status) :
    List (Nat × Status) :=
  l.map fun e => if e.1 = i then (e.1, st) else e

/-- The mutable state touched by the queue code: the observable status list
(`uploadQueue`), the processing queue (`uploadQueueRef.current`) and the
in-flight flag (`isUploadingRef.current`). -/
structure AppState where
  uploadQueue : List (Nat × Status)
  queueRef : List Chunk
  isUploading : Bool
deriving DecidableEq

/-- Small-step semantics of the queue code at the granularity of the event
loop's suspension points.  Each constructor is one synchronous execution
segment:

* `enqueue` — `handleDataAvailable` publishing a fresh chunk (App.js
  lines 107-117): status `pending`, `retries` 0, appended to both lists.
* `drainOffline` — `processQueue` invoked while `navigator.onLine` is false
  (lines 124-127): defers, changes nothing.
* `drainStart` — lines 129-141: sets the in-flight flag (only possible when it
  is clear, by the early return of line 122), marks the head `uploading` and
  starts the transfer.
* `finishSuccess` — the `try` continuation plus `finally` (lines 143-144,
  155-156): marks `completed`, shifts, clears the flag.
* `finishRetry` — the `catch` retry branch plus `finally` (lines 147-150,
  155-156): increments `retries`, marks `retry (n)`, keeps the chunk at the
  head, clears the flag after the backoff wait.
* `finishFail` — the `catch` terminal branch plus `finally` (lines 152-153,
  155-156): marks `failed`, shifts, clears the flag. -/
inductive Step : AppState → AppState → Prop
  | enqueue (s : AppState) (c : Chunk)
      (hfresh : c.id ∉ s.uploadQueue.map Prod.fst) (h0 : c.retries = 0) :
      Step s { uploadQueue := s.uploadQueue ++ [(c.id, Status.pending)],
               queueRef := s.queueRef ++ [c],
               isUploading := s.isUploading }
  | drainOffline (s : AppState) (h : s.isUploading = false)
      (hne : s.queueRef ≠ []) : Step s s
  | drainStart (s : AppState) (c : Chunk) (q : List Chunk)
      (h : s.isUploading = false) (hq : s.queueRef = c :: q) :
      Step s { uploadQueue := updateChunkStatus s.uploadQueue c.id Status.uploading,
               queueRef := s.queueRef,
               isUploading := true }
  | finishSuccess (s : AppState) (c : Chunk) (q : List Chunk)
      (h : s.isUploading = true) (hq : s.queueRef = c :: q) :
      Step s { uploadQueue := updateChunkStatus s.uploadQueue c.id Status.completed,
               queueRef := q,
               isUploading := false }
  | finishRetry (s : AppState) (c : Chunk) (q : List Chunk)
      (h : s.isUploading = true) (hq : s.queueRef = c :: q)
      (hr : c.retries < MAX_RETRIES) :
      Step s { uploadQueue :=
                 updateChunkStatus s.uploadQueue c.id (Status.retry (c.retries + 1)),
               queueRef := { c with retries := c.retries + 1 } :: q,
               isUploading := false }
  | finishFail (s : AppState) (c : Chunk) (q : List Chunk)
      (h : s.isUploading = true) (hq : s.queueRef = c :: q)
      (hr : ¬ c.retries < MAX_RETRIES) :
      Step s { uploadQueue := updateChunkStatus s.uploadQueue c.id Status.failed,
               queueRef := q,
               isUploading := false }

/-- Initial state: empty lists, flag clear (App.js lines 13, 20, 21). -/
def initState : AppState :=
  { uploadQueue := [], queueRef := [], isUploading := false }

/-- States reachable from the initial state. -/
inductive Reachable : AppState → Prop
  | init : Reachable initState
  | step {s s' : AppState} : Reachable s → Step s s' → Reachable s'

/-- Number of entries currently reported `uploading`. -/
def uploadingCount (l : List (Nat × Status)) : Nat :=
  (l.filter fun e => e.2 = Status.uploading).length

/-! ## Capture session model -/

/-- `MediaRecorder.state` as far as `stopRecording` consults it. -/
inductive RecState
  | recording
  | inactive
deriving DecidableEq

/-- The recorder handle together with release counters: `encoderStops` counts
calls to `mediaRecorder.stop()`, `trackStops` counts rounds of
`stream.getTracks().forEach(track => track.stop())`.  The browser contract for
`MediaRecorder.stop()` is that the recorder's state becomes `inactive`. -/
structure Recorder where
  state : RecState
  encoderStops : Nat
  trackStops : Nat
deriving DecidableEq

/-- A freshly constructed, started recorder (App.js lines 75, 80). -/
def freshRecorder : Recorder :=
  { state := RecState.recording, encoderStops := 0, trackStops := 0 }

/-- One `ondataavailable` emission: the blob size and the timestamp string
taken at that moment. -/
structure Emission where
  size : Nat
  ts : String

/-- `String(n).padStart(3, '0')` (App.js line 105). -/
def padStart3 (s : String) : String :=
  if s.length ≥ 3 then s else String.mk (List.replicate (3 - s.length) '0') ++ s

/-- The filename of App.js line 105. -/
def mkFilename (seq : Nat) (ts : String) : String :=
  "chunk_" ++ padStart3 (toString seq) ++ "_" ++ ts ++ ".webm"

/-- A published chunk artifact as observed at creation: the value of
`chunkSequence.current` used to build it, the derived filename, and the blob
size. -/
structure CaptureChunk where
  sequence : Nat
  filename : String
  size : Nat
deriving DecidableEq

/-- The capture-side mutable state: `mediaRecorderRef`, `isRecording`, the
elapsed-seconds `timer` with its interval handle (`timerActive`),
`chunkSequence.current`, and the list of artifacts published so far. -/
structure Session where
  mediaRecorder : Option Recorder
  isRecording : Bool
  timer : Nat
  timerActive : Bool
  chunkSequence : Nat
  published : List CaptureChunk
deriving DecidableEq

/-- `handleDataAvailable` (App.js lines 100-119): a zero-byte emission is
discarded; otherwise the sequence counter is incremented first and the
artifact is built from the incremented value and published. -/
def handleDataAvailable (e : Emission) (s : Session) : Session :=
  if e.size > 0 then
    { s with chunkSequence := s.chunkSequence + 1,
             published := s.published ++
               [{ sequence := s.chunkSequence + 1,
                  filename := mkFilename (s.chunkSequence + 1) e.ts,
                  size := e.size }] }
  else s

/-- `startStream` (App.js lines 73-89): installs a fresh started recorder,
sets the recording flag, resets `chunkSequence.current` to 0 and starts the
1-second timer interval.  The `timer` value itself is not reset. -/
def startStream (s : Session) : Session :=
  { s with mediaRecorder := some freshRecorder,
           isRecording := true,
           chunkSequence := 0,
           timerActive := true }

/-- `stopRecording` (App.js lines 91-98): only when a recorder exists and its
state is not `'inactive'` are the encoder stopped and the tracks released
(each bumping its counter, the recorder becoming `inactive`); the interval is
cleared and the recording flag dropped unconditionally. -/
def stopRecording (s : Session) : Session :=
  match s.mediaRecorder with
  | some r =>
    if r.state = RecState.inactive then
      { s with timerActive := false, isRecording := false }
    else
      { s with mediaRecorder := some { state := RecState.inactive,
                                       encoderStops := r.encoderStops + 1,
                                       trackStops := r.trackStops + 1 },
               timerActive := false,
               isRecording := false }
  | none => { s with timerActive := false, isRecording := false }

/-- One firing of the `setInterval(.., 1000)` callback (App.js lines 86-88):
increments the timer while the interval is installed. -/
def tick (s : Session) : Session :=
  if s.timerActive then { s with timer := s.timer + 1 } else s

/-! ## Source selection (`startRecording`, App.js lines 31-70) -/

/-- The capture request issued to the environment: `getUserMedia` with its
video/audio flags (App.js lines 42-45), or `getDisplayMedia` with its cursor
constraint and audio flag (App.js lines 59-62). -/
inductive MediaRequest
  | camera (video audio : Bool)
  | display (cursor : String) (audio : Bool)
deriving DecidableEq

/-- Outcome of `startRecording`: a stream acquired by the given request and
handed to `startStream`, or the camera-permission alert (line 50), or the
generic capture-failure alert (line 68). -/
inductive StartOutcome
  | streamStarted (req : MediaRequest)
  | cameraDenied
  | captureFailed
deriving DecidableEq

/-- `startRecording` (App.js lines 31-70) as a function of the environment's
answers: `isMobile` is the user-agent classification (line 33),
`confirmCamera` the user's answer to the `window.confirm` choice (line 38),
`cameraGranted` / `displayGranted` whether the corresponding permission
request succeeds.  On mobile with camera confirmed, `getUserMedia` is tried
and the function returns on either outcome (lines 40-53); in every other case
`getDisplayMedia` is tried with `cursor: "always"` and `audio: true`
(lines 58-69). -/
def startRecording (isMobile confirmCamera cameraGranted displayGranted : Bool) :
    StartOutcome :=
  if isMobile ∧ confirmCamera then
    if cameraGranted then StartOutcome.streamStarted (MediaRequest.camera true true)
    else StartOutcome.cameraDenied
  else
    if displayGranted then
      StartOutcome.streamStarted (MediaRequest.display "always" true)
    else StartOutcome.captureFailed

/-! ## Backend upload route (src/unnamed/part_000, lines 127-173) -/

/-- The parts of the incoming request the route consults: whether multer
parsed a file out of the `chunk` field, and the `filename` form field. -/
structure UploadReq where
  hasFile : Bool
  filename : Option String
deriving DecidableEq

/-- Backend environment: the `FOLDER_ID` environment variable and whether the
`drive.files.create` call succeeds. -/
structure BackendEnv where
  folderId : Option String
  driveOk : Bool
deriving DecidableEq

/-- An HTTP response as the frontend's axios call sees it. -/
structure HttpResponse where
  status : Nat
deriving DecidableEq

/-- The `/upload` route handler (src/unnamed/part_000, lines 127-173),
returning the response and whether `drive.files.create` was invoked.
`400` when no file was uploaded (lines 129-131); `500` with
"Server misconfigured: Missing FOLDER_ID" before any drive call when
`FOLDER_ID` is unset (lines 133-136); otherwise the drive call is made and
the route answers `200` on success and `500` on a drive error
(lines 155-172). -/
def uploadRoute (env : BackendEnv) (req : UploadReq) : HttpResponse × Bool :=
  if ¬ req.hasFile then (⟨400⟩, false)
  else
    match env.folderId with
    | none => (⟨500⟩, false)
    | some _ => if env.driveOk then (⟨200⟩, true) else (⟨500⟩, true)

/-- Whether an axios POST resolves (2xx) rather than rejects — the success
criterion of the `try`/`catch` in `processQueue` (App.js lines 137-154). -/
def attemptSucceeds (r : HttpResponse) : Bool :=
  200 ≤ r.status ∧ r.status < 300

/-! ## Basic lemmas about the drain model -/

lemma drainQueue_nil_env (q : List Chunk) : (drainQueue [] q).1 = [] := by
  cases q <;> rfl

lemma countStartAttempts_append (i : Nat) (l₁ l₂ : List Event) :
    countStartAttempts i (l₁ ++ l₂) =
      countStartAttempts i l₁ + countStartAttempts i l₂ := by
  induction l₁ with
  | nil => simp [countStartAttempts]
  | cons e t ih =>
    cases e <;> simp [countStartAttempts, ih, Nat.add_assoc]

lemma countStartAttempts_eq_zero {i : Nat} {l : List Event}
    (h : ∀ e ∈ l, eventId e ≠ i) : countStartAttempts i l = 0 := by
  induction l with
  | nil => rfl
  | cons e t ih =>
    have ht : ∀ e' ∈ t, eventId e' ≠ i := fun e' he' => h e' (List.mem_cons_of_mem _ he')
    have he : eventId e ≠ i := h e (List.mem_cons_self _ _)
    cases e with
    | startAttempt j =>
      simp only [eventId] at he
      simp [countStartAttempts, he, ih ht]
    | deferOffline j p => simp [countStartAttempts, ih ht]
    | retryWait j n w => simp [countStartAttempts, ih ht]
    | completed j => simp [countStartAttempts, ih ht]
    | failed j => simp [countStartAttempts, ih ht]

/-- Every event emitted while draining concerns an id of a chunk that was in
the queue: the drain never invents ids, and a chunk removed from the queue is
never touched again. -/
lemma drainQueue_eventId_mem :
    ∀ (env : List EnvStep) (q : List Chunk) (e : Event),
      e ∈ (drainQueue env q).1 → eventId e ∈ q.map Chunk.id := by
  intro env
  induction env with
  | nil =>
    intro q e he
    rw [drainQueue_nil_env] at he
    exact absurd he (List.not_mem_nil e)
  | cons s env ih =>
    intro q e he
    cases q with
    | nil => simp [drainQueue] at he
    | cons c q =>
      cases s with
      | offline =>
        simp only [drainQueue, List.mem_cons] at he
        rcases he with rfl | he
        · simp [eventId]
        · exact ih _ _ he
      | attempt ok =>
        cases ok with
        | true =>
          simp only [drainQueue, List.mem_cons] at he
          rcases he with rfl | rfl | he
          · simp [eventId]
          · simp [eventId]
          · exact List.mem_cons_of_mem _ (ih _ _ he)
        | false =>
          by_cases hr : c.retries < MAX_RETRIES
          · simp only [drainQueue, if_pos hr, List.mem_cons] at he
            rcases he with rfl | rfl | he
            · simp [eventId]
            · simp [eventId]
            · have h' := ih _ _ he
              simpa using h'
          · simp only [drainQueue, if_neg hr, List.mem_cons] at he
            rcases he with rfl | rfl | he
            · simp [eventId]
            · simp [eventId]
            · exact List.mem_cons_of_mem _ (ih _ _ he)

/-! ## Claim theorems: connectivity deferral and backoff -/

/-- C4: a drain attempted with connectivity down is deferred and re-polled
after the fixed 5000 ms interval without starting a transfer: across any
number `m` of consecutive connectivity-down drain cycles the head artifact
(its `retries` counter included) and the whole queue are passed on unchanged,
so no retry budget is consumed until connectivity returns. -/
theorem c4_connectivity_deferral :
    ∀ (m : Nat) (rest : List EnvStep) (c : Chunk) (q : List Chunk),
      drainQueue (List.replicate m EnvStep.offline ++ rest) (c :: q) =
        (List.replicate m (Event.deferOffline c.id OFFLINE_POLL_MS) ++
           (drainQueue rest (c :: q)).1,
         (drainQueue rest (c :: q)).2) := by
  intro m
  induction m with
  | zero => intro rest c q; simp
  | succ m ih =>
    intro rest c q
    simp only [List.replicate_succ, List.cons_append, drainQueue, List.append_eq, ih]

/-- C7: after failed attempt `k+1` (the attempt made with `retryCount = k`,
`k < maxRetries`), the wait imposed before the next attempt is
`baseDelay * 2^retryCount` with `retryCount` already incremented to `k+1`,
and this wait is monotonically non-decreasing in `k`. -/
theorem c7_backoff_growth :
    ∀ (k : Nat) (c : Chunk) (q : List Chunk) (env : List EnvStep),
      c.retries = k → k < MAX_RETRIES → ∀ k', k ≤ k' →
      drainQueue (EnvStep.attempt false :: env) (c :: q) =
        (Event.startAttempt c.id ::
           Event.retryWait c.id (k + 1) (backoffDelay (k + 1)) ::
           (drainQueue env ({ c with retries := k + 1 } :: q)).1,
         (drainQueue env ({ c with retries := k + 1 } :: q)).2) ∧
      backoffDelay (k + 1) = 1000 * 2 ^ (k + 1) ∧
      backoffDelay (k + 1) ≤ backoffDelay (k' + 1) := by
  rintro k ⟨i, r⟩ q env h hk k' hk'
  obtain rfl : r = k := h
  refine ⟨by simp [drainQueue, hk], rfl, ?_⟩
  exact Nat.mul_le_mul_left 1000 (Nat.pow_le_pow_right (by norm_num) (by omega))

/-- Witness for `c7_backoff_growth` at `k = 0`, `k' = 2`. -/
theorem c7_backoff_growth_witness :
    drainQueue [EnvStep.attempt false] [⟨9, 0⟩] =
      (Event.startAttempt 9 ::
         Event.retryWait 9 (0 + 1) (backoffDelay (0 + 1)) ::
         (drainQueue [] [⟨9, 0 + 1⟩]).1,
       (drainQueue [] [⟨9, 0 + 1⟩]).2) ∧
    backoffDelay (0 + 1) = 1000 * 2 ^ (0 + 1) ∧
    backoffDelay (0 + 1) ≤ backoffDelay (2 + 1) :=
  c7_backoff_growth 0 ⟨9, 0⟩ [] [] rfl (by decide) 2 (by decide)

/-- C1: an artifact with a fresh retry budget whose every attempt fails gets
exactly `MAX_RETRIES + 1` transfer attempts (1 initial + `MAX_RETRIES`
retries), is then marked `failed` and removed, and the drain continues with
the rest of the queue; provided its id is not shared with a later chunk, no
further attempt for it ever occurs in the whole trace. -/
theorem c1_retry_ceiling :
    ∀ (c : Chunk) (q : List Chunk) (rest : List EnvStep),
      c.retries = 0 → c.id ∉ q.map Chunk.id →
      drainQueue (List.replicate (MAX_RETRIES + 1) (EnvStep.attempt false) ++ rest)
          (c :: q) =
        ([Event.startAttempt c.id, Event.retryWait c.id 1 (backoffDelay 1),
          Event.startAttempt c.id, Event.retryWait c.id 2 (backoffDelay 2),
          Event.startAttempt c.id, Event.retryWait c.id 3 (backoffDelay 3),
          Event.startAttempt c.id, Event.failed c.id] ++ (drainQueue rest q).1,
         (drainQueue rest q).2) ∧
      countStartAttempts c.id
          (drainQueue (List.replicate (MAX_RETRIES + 1) (EnvStep.attempt false) ++ rest)
            (c :: q)).1 = MAX_RETRIES + 1 := by
  rintro ⟨i, r⟩ q rest h hq
  obtain rfl : r = 0 := h
  have hid : i ∉ q.map Chunk.id := hq
  have heq : drainQueue (List.replicate (MAX_RETRIES + 1) (EnvStep.attempt false) ++ rest)
      ((⟨i, 0⟩ : Chunk) :: q) =
      ([Event.startAttempt i, Event.retryWait i 1 (backoffDelay 1),
        Event.startAttempt i, Event.retryWait i 2 (backoffDelay 2),
        Event.startAttempt i, Event.retryWait i 3 (backoffDelay 3),
        Event.startAttempt i, Event.failed i] ++ (drainQueue rest q).1,
       (drainQueue rest q).2) := by
    show drainQueue
        (EnvStep.attempt false :: EnvStep.attempt false :: EnvStep.attempt false ::
          EnvStep.attempt false :: rest) ((⟨i, 0⟩ : Chunk) :: q) = _
    simp [drainQueue, MAX_RETRIES, backoffDelay]
  refine ⟨heq, ?_⟩
  rw [heq]
  have hsuffix : countStartAttempts i (drainQueue rest q).1 = 0 :=
    countStartAttempts_eq_zero fun e he h' =>
      hid (h' ▸ drainQueue_eventId_mem rest q e he)
  simp [countStartAttempts_append, countStartAttempts, hsuffix, MAX_RETRIES]

/-- Witness for `c1_retry_ceiling` on a single freshly created chunk. -/
theorem c1_retry_ceiling_witness :
    drainQueue (List.replicate (MAX_RETRIES + 1) (EnvStep.attempt false) ++ [])
        [(⟨7, 0⟩ : Chunk)] =
      ([Event.startAttempt 7, Event.retryWait 7 1 (backoffDelay 1),
        Event.startAttempt 7, Event.retryWait 7 2 (backoffDelay 2),
        Event.startAttempt 7, Event.retryWait 7 3 (backoffDelay 3),
        Event.startAttempt 7, Event.failed 7] ++ (drainQueue [] []).1,
       (drainQueue [] []).2) ∧
    countStartAttempts 7
        (drainQueue (List.replicate (MAX_RETRIES + 1) (EnvStep.attempt false) ++ [])
          [(⟨7, 0⟩ : Chunk)]).1 = MAX_RETRIES + 1 :=
  c1_retry_ceiling ⟨7, 0⟩ [] [] rfl (by simp)

/-! ## FIFO preservation -/

/-- Splitting an append at an element that cannot lie in the left part. -/
lemma append_split_right {α : Type} {xs ys l₁ l₂ : List α} {x : α}
    (h : xs ++ ys = l₁ ++ x :: l₂) (hx : x ∉ xs) :
    ∃ l, l₁ = xs ++ l ∧ ys = l ++ x :: l₂ := by
  rcases List.append_eq_append_iff.mp h with ⟨a, ha1, ha2⟩ | ⟨a, ha1, ha2⟩
  · exact ⟨a, ha1, ha2⟩
  · cases a with
    | nil =>
      refine ⟨[], ?_, ?_⟩
      · simpa using ha1.symm
      · simpa using ha2.symm
    | cons y a' =>
      exfalso
      have hxy : x = y ∧ l₂ = a' ++ ys := by
        constructor
        · exact (List.cons.injEq _ _ _ _ ▸ ha2).1
        · exact (List.cons.injEq _ _ _ _ ▸ ha2).2
      apply hx
      rw [ha1, hxy.1]
      exact List.mem_append_right _ (List.mem_cons_self _ _)

/-- Decomposition of a drain trace at the head chunk: the trace is a block of
events that all concern the head's id, followed by the trace of draining the
tail with the remaining environment; and if the tail's trace is non-empty,
the head reached a terminal event (`completed` or `failed`) inside its
block. -/
lemma drainQueue_head_decomp :
    ∀ (env : List EnvStep) (c : Chunk) (q : List Chunk),
      ∃ (evs : List Event) (env' : List EnvStep),
        (drainQueue env (c :: q)).1 = evs ++ (drainQueue env' q).1 ∧
        (∀ e ∈ evs, eventId e = c.id) ∧
        ((drainQueue env' q).1 ≠ [] →
          Event.completed c.id ∈ evs ∨ Event.failed c.id ∈ evs) := by
  intro env
  induction env with
  | nil =>
    intro c q
    refine ⟨[], [], ?_, by simp, ?_⟩
    · simp [drainQueue_nil_env]
    · intro h; exact absurd (drainQueue_nil_env q) h
  | cons s env ih =>
    intro c q
    cases s with
    | offline =>
      obtain ⟨evs, env', h1, h2, h3⟩ := ih c q
      refine ⟨Event.deferOffline c.id OFFLINE_POLL_MS :: evs, env', ?_, ?_, ?_⟩
      · simp [drainQueue, h1]
      · intro e he
        rcases List.mem_cons.mp he with rfl | he
        · rfl
        · exact h2 e he
      · intro hne
        rcases h3 hne with h | h
        · exact Or.inl (List.mem_cons_of_mem _ h)
        · exact Or.inr (List.mem_cons_of_mem _ h)
    | attempt ok =>
      cases ok with
      | true =>
        refine ⟨[Event.startAttempt c.id, Event.completed c.id], env, ?_, ?_, ?_⟩
        · simp [drainQueue]
        · intro e he
          rcases List.mem_cons.mp he with rfl | he
          · rfl
          · rcases List.mem_cons.mp he with rfl | he
            · rfl
            · exact absurd he (List.not_mem_nil e)
        · intro _
          exact Or.inl (by simp)
      | false =>
        by_cases hr : c.retries < MAX_RETRIES
        · obtain ⟨evs, env', h1, h2, h3⟩ := ih { c with retries := c.retries + 1 } q
          refine ⟨Event.startAttempt c.id ::
              Event.retryWait c.id (c.retries + 1) (backoffDelay (c.retries + 1)) :: evs,
            env', ?_, ?_, ?_⟩
          · simp [drainQueue, if_pos hr, h1]
          · intro e he
            rcases List.mem_cons.mp he with rfl | he
            · rfl
            · rcases List.mem_cons.mp he with rfl | he
              · rfl
              · exact h2 e he
          · intro hne
            rcases h3 hne with h | h
            · exact Or.inl (List.mem_cons_of_mem _ (List.mem_cons_of_mem _ h))
            · exact Or.inr (List.mem_cons_of_mem _ (List.mem_cons_of_mem _ h))
        · refine ⟨[Event.startAttempt c.id, Event.failed c.id], env, ?_, ?_, ?_⟩
          · simp [drainQueue, if_neg hr]
          · intro e he
            rcases List.mem_cons.mp he with rfl | he
            · rfl
            · rcases List.mem_cons.mp he with rfl | he
              · rfl
              · exact absurd he (List.not_mem_nil e)
          · intro _
            exact Or.inr (by simp)

/-- FIFO core: in the drain trace of a queue containing `A` ahead of `B`
(with `B`'s id not shared by `A` or any chunk ahead of `B`), every transfer
attempt for `B` is preceded by a terminal event for `A`. -/
lemma drainQueue_fifo_aux :
    ∀ (p : List Chunk) (env : List EnvStep) (A : Chunk) (q₂ : List Chunk)
      (B : Chunk) (q₃ : List Chunk) (l₁ l₂ : List Event),
      B.id ∉ (p ++ A :: q₂).map Chunk.id →
      (drainQueue env (p ++ A :: q₂ ++ B :: q₃)).1 =
        l₁ ++ Event.startAttempt B.id :: l₂ →
      Event.completed A.id ∈ l₁ ∨ Event.failed A.id ∈ l₁ := by
  intro p
  induction p with
  | nil =>
    intro env A q₂ B q₃ l₁ l₂ hB heq
    obtain ⟨evs, env', h1, h2, h3⟩ := drainQueue_head_decomp env A (q₂ ++ B :: q₃)
    simp only [List.nil_append, List.cons_append] at heq
    rw [h1] at heq
    have hBA : B.id ≠ A.id := by
      intro h
      exact hB (by simp [h])
    have hnot : Event.startAttempt B.id ∉ evs := by
      intro hmem
      exact hBA (h2 _ hmem)
    obtain ⟨l, hl1, hl2⟩ := append_split_right heq hnot
    have hne : (drainQueue env' (q₂ ++ B :: q₃)).1 ≠ [] := by
      rw [hl2]; simp
    rcases h3 hne with h | h
    · exact Or.inl (hl1 ▸ List.mem_append_left _ h)
    · exact Or.inr (hl1 ▸ List.mem_append_left _ h)
  | cons c p' ih =>
    intro env A q₂ B q₃ l₁ l₂ hB heq
    obtain ⟨evs, env', h1, h2, h3⟩ :=
      drainQueue_head_decomp env c (p' ++ A :: q₂ ++ B :: q₃)
    have heq' : (drainQueue env (c :: (p' ++ A :: q₂ ++ B :: q₃))).1 =
        l₁ ++ Event.startAttempt B.id :: l₂ := by
      simpa using heq
    rw [h1] at heq'
    have hBc : B.id ≠ c.id := by
      intro h
      exact hB (by simp [h])
    have hnot : Event.startAttempt B.id ∉ evs := by
      intro hmem
      exact hBc (h2 _ hmem)
    obtain ⟨l, hl1, hl2⟩ := append_split_right heq' hnot
    have hB' : B.id ∉ (p' ++ A :: q₂).map Chunk.id := by
      intro h
      exact hB (by simpa using Or.inr h)
    rcases ih env' A q₂ B q₃ l l₂ hB' hl2 with h | h
    · exact Or.inl (hl1 ▸ List.mem_append_right _ h)
    · exact Or.inr (hl1 ▸ List.mem_append_right _ h)

/-- C3: strict FIFO — if artifact `A` sits anywhere ahead of artifact `B` in
the queue (ids not aliased among the chunks ahead of `B`), then in the drain
trace every transfer attempt for `B`, in particular the first, is preceded by
`A` reaching a terminal state (`completed` or `failed`); the drain always
works on the head and never skips ahead. -/
theorem c3_fifo_preservation :
    ∀ (env : List EnvStep) (q₁ : List Chunk) (A : Chunk) (q₂ : List Chunk)
      (B : Chunk) (q₃ : List Chunk) (l₁ l₂ : List Event),
      B.id ∉ (q₁ ++ A :: q₂).map Chunk.id →
      (drainQueue env (q₁ ++ A :: q₂ ++ B :: q₃)).1 =
        l₁ ++ Event.startAttempt B.id :: l₂ →
      Event.completed A.id ∈ l₁ ∨ Event.failed A.id ∈ l₁ :=
  fun env q₁ A q₂ B q₃ l₁ l₂ hB heq => drainQueue_fifo_aux q₁ env A q₂ B q₃ l₁ l₂ hB heq

/-- Witness for `c3_fifo_preservation`: two chunks, both accepted on first
attempt; the second chunk's attempt is preceded by the first completing. -/
theorem c3_fifo_preservation_witness :
    Event.completed 1 ∈ [Event.startAttempt 1, Event.completed 1] ∨
    Event.failed 1 ∈ [Event.startAttempt 1, Event.completed 1] :=
  c3_fifo_preservation [EnvStep.attempt true, EnvStep.attempt true]
    [] ⟨1, 0⟩ [] ⟨2, 0⟩ [] [Event.startAttempt 1, Event.completed 1]
    [Event.completed 2] (by decide) (by decide)

/-! ## Serial delivery: the in-flight flag invariant -/

lemma updateChunkStatus_map_fst (l : List (Nat × Status)) (i : Nat) (st : Status) :
    (updateChunkStatus l i st).map Prod.fst = l.map Prod.fst := by
  induction l with
  | nil => rfl
  | cons e t ih =>
    simp only [updateChunkStatus, List.map_cons] at ih ⊢
    by_cases h : e.1 = i <;> simp [h, ih]

/-- The inductive invariant of the queue state: observable ids are not
duplicated; with the flag clear nothing is reported `uploading`; with the
flag set the queue is non-empty and only the head's id can be reported
`uploading`. -/
def QueueInv (s : AppState) : Prop :=
  (s.uploadQueue.map Prod.fst).Nodup ∧
  (s.isUploading = false → ∀ e ∈ s.uploadQueue, e.2 ≠ Status.uploading) ∧
  (s.isUploading = true → ∃ c q, s.queueRef = c :: q ∧
    ∀ e ∈ s.uploadQueue, e.2 = Status.uploading → e.1 = c.id)

lemma queueInv_step {s s' : AppState} (hs : QueueInv s) (hstep : Step s s') :
    QueueInv s' := by
  obtain ⟨hnd, hoff, hon⟩ := hs
  cases hstep with
  | enqueue c hfresh h0 =>
    refine ⟨?_, ?_, ?_⟩
    · rw [List.map_append]
      simp only [List.map_cons, List.map_nil]
      rw [List.nodup_append]
      exact ⟨hnd, List.nodup_singleton _, by
        intro a ha hb
        simp only [List.mem_singleton] at hb
        exact hfresh (hb ▸ ha)⟩
    · intro hflag e he
      rcases List.mem_append.mp he with he | he
      · exact hoff hflag e he
      · simp only [List.mem_singleton] at he
        subst he
        simp
    · intro hflag
      obtain ⟨c₀, q₀, hq, hall⟩ := hon hflag
      refine ⟨c₀, q₀ ++ [c], by simp [hq], ?_⟩
      intro e he hu
      rcases List.mem_append.mp he with he | he
      · exact hall e he hu
      · simp only [List.mem_singleton] at he
        subst he
        simp at hu
  | drainOffline h hne => exact ⟨hnd, hoff, hon⟩
  | drainStart c q h hq =>
    refine ⟨by rw [updateChunkStatus_map_fst]; exact hnd, ?_, ?_⟩
    · intro hflag
      simp at hflag
    · intro _
      refine ⟨c, q, hq, ?_⟩
      intro e he hu
      obtain ⟨e₀, he₀, heq⟩ := List.mem_map.mp he
      by_cases h0 : e₀.1 = c.id
      · rw [if_pos h0] at heq
        rw [← heq]
        exact h0
      · rw [if_neg h0] at heq
        subst heq
        exact absurd hu (hoff h e₀ he₀)
  | finishSuccess c q h hq =>
    refine ⟨by rw [updateChunkStatus_map_fst]; exact hnd, ?_, ?_⟩
    · intro _ e he
      obtain ⟨e₀, he₀, heq⟩ := List.mem_map.mp he
      obtain ⟨c₁, q₁, hq₁, hall⟩ := hon h
      have hc : c₁ = c := by
        rw [hq] at hq₁
        exact (List.cons.injEq _ _ _ _ ▸ hq₁.symm).1
      by_cases h0 : e₀.1 = c.id
      · rw [if_pos h0] at heq
        rw [← heq]
        simp
      · rw [if_neg h0] at heq
        subst heq
        intro hu
        exact h0 (hc ▸ hall e₀ he₀ hu)
    · intro hflag
      simp at hflag
  | finishRetry c q h hq hr =>
    refine ⟨by rw [updateChunkStatus_map_fst]; exact hnd, ?_, ?_⟩
    · intro _ e he
      obtain ⟨e₀, he₀, heq⟩ := List.mem_map.mp he
      obtain ⟨c₁, q₁, hq₁, hall⟩ := hon h
      have hc : c₁ = c := by
        rw [hq] at hq₁
        exact (List.cons.injEq _ _ _ _ ▸ hq₁.symm).1
      by_cases h0 : e₀.1 = c.id
      · rw [if_pos h0] at heq
        rw [← heq]
        simp
      · rw [if_neg h0] at heq
        subst heq
        intro hu
        exact h0 (hc ▸ hall e₀ he₀ hu)
    · intro hflag
      simp at hflag
  | finishFail c q h hq hr =>
    refine ⟨by rw [updateChunkStatus_map_fst]; exact hnd, ?_, ?_⟩
    · intro _ e he
      obtain ⟨e₀, he₀, heq⟩ := List.mem_map.mp he
      obtain ⟨c₁, q₁, hq₁, hall⟩ := hon h
      have hc : c₁ = c := by
        rw [hq] at hq₁
        exact (List.cons.injEq _ _ _ _ ▸ hq₁.symm).1
      by_cases h0 : e₀.1 = c.id
      · rw [if_pos h0] at heq
        rw [← heq]
        simp
      · rw [if_neg h0] at heq
        subst heq
        intro hu
        exact h0 (hc ▸ hall e₀ he₀ hu)
    · intro hflag
      simp at hflag

lemma queueInv_reachable {s : AppState} (h : Reachable s) : QueueInv s := by
  induction h with
  | init =>
    refine ⟨by simp [initState], ?_, ?_⟩
    · intro _ e he
      simp [initState] at he
    · intro hflag
      simp [initState] at hflag
  | step hr hstep ih => exact queueInv_step ih hstep

/-- A Nodup list whose elements are all equal has at most one element. -/
lemma length_le_one_of_nodup_of_all_eq {α : Type} {xs : List α} {a : α}
    (hnd : xs.Nodup) (hall : ∀ x ∈ xs, x = a) : xs.length ≤ 1 := by
  cases xs with
  | nil => simp
  | cons x t =>
    cases t with
    | nil => simp
    | cons y t' =>
      exfalso
      have hx : x = a := hall x (by simp)
      have hy : y = a := hall y (by simp)
      have : x ∉ y :: t' := (List.nodup_cons.mp hnd).1
      exact this (by simp [hx, hy])

lemma uploadingCount_le_one {l : List (Nat × Status)} {a : Nat}
    (hnd : (l.map Prod.fst).Nodup)
    (hall : ∀ e ∈ l, e.2 = Status.uploading → e.1 = a) :
    uploadingCount l ≤ 1 := by
  unfold uploadingCount
  have hsub : List.Sublist ((l.filter fun e => e.2 = Status.uploading).map Prod.fst)
      (l.map Prod.fst) := (List.filter_sublist l).map Prod.fst
  have hnd' : ((l.filter fun e => e.2 = Status.uploading).map Prod.fst).Nodup :=
    hnd.sublist hsub
  have hall' : ∀ x ∈ (l.filter fun e => e.2 = Status.uploading).map Prod.fst,
      x = a := by
    intro x hx
    obtain ⟨e, he, hfst⟩ := List.mem_map.mp hx
    obtain ⟨hel, hup⟩ := List.mem_filter.mp he
    exact hfst ▸ hall e hel (by simpa using hup)
  have := length_le_one_of_nodup_of_all_eq hnd' hall'
  simpa using this

lemma uploadingCount_eq_zero {l : List (Nat × Status)}
    (h : ∀ e ∈ l, e.2 ≠ Status.uploading) : uploadingCount l = 0 := by
  unfold uploadingCount
  rw [List.length_eq_zero, List.filter_eq_nil_iff]
  intro e he
  simpa using h e he

/-- C2: in every reachable queue state at most one artifact is reported
`uploading`; with the in-flight flag clear none is; and whenever the flag is
set, a step that resets it (an outcome path) is enabled, so the flag can
never be stuck set. -/
theorem c2_serial_delivery :
    ∀ s : AppState, Reachable s →
      uploadingCount s.uploadQueue ≤ 1 ∧
      (s.isUploading = false → uploadingCount s.uploadQueue = 0) ∧
      (s.isUploading = true → ∃ s', Step s s' ∧ s'.isUploading = false) := by
  intro s hs
  obtain ⟨hnd, hoff, hon⟩ := queueInv_reachable hs
  refine ⟨?_, ?_, ?_⟩
  · cases hflag : s.isUploading with
    | false =>
      rw [uploadingCount_eq_zero (hoff hflag)]
      omega
    | true =>
      obtain ⟨c, q, _, hall⟩ := hon hflag
      exact uploadingCount_le_one hnd hall
  · intro hflag
    exact uploadingCount_eq_zero (hoff hflag)
  · intro hflag
    obtain ⟨c, q, hq, _⟩ := hon hflag
    exact ⟨_, Step.finishSuccess s c q hflag hq, rfl⟩

/-- Witness for `c2_serial_delivery` at the initial state. -/
theorem c2_serial_delivery_witness :
    uploadingCount initState.uploadQueue ≤ 1 ∧
    (initState.isUploading = false → uploadingCount initState.uploadQueue = 0) ∧
    (initState.isUploading = true →
      ∃ s', Step initState s' ∧ s'.isUploading = false) :=
  c2_serial_delivery initState Reachable.init

/-! ## Capture session claims -/

/-- The effect of a sequence of `ondataavailable` firings on the session
state (App.js line 77 registers `handleDataAvailable` as the handler). -/
def runEmissions (es : List Emission) (s : Session) : Session :=
  es.foldl (fun st e => handleDataAvailable e st) s

lemma runEmissions_spec :
    ∀ (es : List Emission) (s : Session),
      (runEmissions es s).published.map CaptureChunk.sequence =
        s.published.map CaptureChunk.sequence ++
          List.range' (s.chunkSequence + 1) (es.countP fun e => decide (0 < e.size)) ∧
      (runEmissions es s).chunkSequence =
        s.chunkSequence + (es.countP fun e => decide (0 < e.size)) := by
  intro es
  induction es with
  | nil => intro s; simp [runEmissions]
  | cons e t ih =>
    intro s
    have hrun : runEmissions (e :: t) s = runEmissions t (handleDataAvailable e s) := rfl
    by_cases hpos : 0 < e.size
    · have hh : handleDataAvailable e s =
          { s with chunkSequence := s.chunkSequence + 1,
                   published := s.published ++
                     [{ sequence := s.chunkSequence + 1,
                        filename := mkFilename (s.chunkSequence + 1) e.ts,
                        size := e.size }] } := by
        simp [handleDataAvailable, hpos]
      obtain ⟨ih1, ih2⟩ := ih (handleDataAvailable e s)
      have hc : List.countP (fun e => decide (0 < e.size)) (e :: t) =
          List.countP (fun e => decide (0 < e.size)) t + 1 := by
        simp [List.countP_cons, hpos]
      rw [hrun]
      constructor
      · rw [ih1, hh, hc, List.range'_succ]
        simp [List.append_assoc]
      · rw [ih2, hh, hc]
        simp only []
        omega
    · have hh : handleDataAvailable e s = s := by
        simp [handleDataAvailable, hpos]
      obtain ⟨ih1, ih2⟩ := ih (handleDataAvailable e s)
      rw [hrun]
      constructor
      · rw [ih1, hh]
        simp [List.countP_cons, hpos]
      · rw [ih2, hh]
        simp [List.countP_cons, hpos]

/-- C6: a session's published artifacts carry sequence values exactly
`1..N` (contiguous, in capture order) where `N` is the number of non-empty
emissions: `startStream` resets the counter to 0, each non-empty emission
increments it before constructing the artifact, and a zero-byte emission is
discarded, producing no artifact and consuming no sequence number. -/
theorem c6_sequence_integrity :
    ∀ (es : List Emission) (s : Session),
      (runEmissions es (startStream s)).published.map CaptureChunk.sequence =
        s.published.map CaptureChunk.sequence ++
          List.range' 1 (es.countP fun e => decide (0 < e.size)) ∧
      (startStream s).chunkSequence = 0 ∧
      (∀ (ts : String) (st : Session), handleDataAvailable ⟨0, ts⟩ st = st) := by
  intro es s
  obtain ⟨h1, _⟩ := runEmissions_spec es (startStream s)
  refine ⟨?_, rfl, ?_⟩
  · rw [h1]
    simp [startStream]
  · intro ts st
    simp [handleDataAvailable]

/-- C8: on a mobile-classified device the user is offered the camera/display
choice — camera capture (`getUserMedia` with video and audio) if the user
confirms the camera fallback, display capture otherwise; on a non-mobile
device, whatever the choice flag, the request is display capture with
`cursor: "always"` and `audio: true`. -/
theorem c8_source_selection :
    ∀ (cc cg dg : Bool),
      (startRecording true true cg dg =
        if cg then StartOutcome.streamStarted (MediaRequest.camera true true)
        else StartOutcome.cameraDenied) ∧
      (startRecording true false cg dg =
        if dg then StartOutcome.streamStarted (MediaRequest.display "always" true)
        else StartOutcome.captureFailed) ∧
      (startRecording false cc cg dg =
        if dg then StartOutcome.streamStarted (MediaRequest.display "always" true)
        else StartOutcome.captureFailed) := by
  intro cc cg dg
  refine ⟨?_, ?_, ?_⟩ <;> simp [startRecording]

/-- Total encoder stops across the session's recorder handle. -/
def encoderStopsOf (s : Session) : Nat :=
  match s.mediaRecorder with
  | some r => r.encoderStops
  | none => 0

/-- Total track releases across the session's recorder handle. -/
def trackStopsOf (s : Session) : Nat :=
  match s.mediaRecorder with
  | some r => r.trackStops
  | none => 0

/-- C9: `stopRecording` is idempotent — a second call (explicit or from the
stream-ended hook) changes nothing, so no resource is released twice; a
single call stops the encoder and releases the tracks at most once, and the
state after any call is idle (recording flag down, interval cancelled). -/
theorem c9_stop_idempotent :
    ∀ s : Session,
      stopRecording (stopRecording s) = stopRecording s ∧
      (stopRecording s).isRecording = false ∧
      (stopRecording s).timerActive = false ∧
      encoderStopsOf (stopRecording s) ≤ encoderStopsOf s + 1 ∧
      trackStopsOf (stopRecording s) ≤ trackStopsOf s + 1 ∧
      encoderStopsOf (stopRecording (stopRecording s)) =
        encoderStopsOf (stopRecording s) ∧
      trackStopsOf (stopRecording (stopRecording s)) =
        trackStopsOf (stopRecording s) := by
  intro s
  cases hmr : s.mediaRecorder with
  | none => simp [stopRecording, hmr, encoderStopsOf, trackStopsOf]
  | some r =>
    by_cases hst : r.state = RecState.inactive
    · simp [stopRecording, hmr, hst, encoderStopsOf, trackStopsOf]
    · simp [stopRecording, hmr, hst, encoderStopsOf, trackStopsOf]

lemma tick_iterate_active :
    ∀ (n : Nat) (s : Session), s.timerActive = true →
      (tick^[n] s).timer = s.timer + n ∧ (tick^[n] s).timerActive = true ∧
      (tick^[n] s).chunkSequence = s.chunkSequence ∧
      (tick^[n] s).mediaRecorder = s.mediaRecorder ∧
      (tick^[n] s).isRecording = s.isRecording := by
  intro n
  induction n with
  | zero => intro s h; simp [h]
  | succ n ih =>
    intro s h
    obtain ⟨h1, h2, h3, h4, h5⟩ := ih s h
    rw [Function.iterate_succ_apply']
    simp [tick, h2, h1, h3, h4, h5]
    omega

/-- C10: starting a new session after a previous one ran for `n` seconds
resets the chunk sequence counter to 0, installs a fresh recorder and raises
the recording flag, but does not reset the elapsed-time counter: the timer
resumes from the previous session's final value `s.timer + n`, not from
zero. -/
theorem c10_timer_not_reset :
    ∀ (s : Session) (n : Nat),
      (startStream (stopRecording (tick^[n] (startStream s)))).timer =
        s.timer + n ∧
      (startStream (stopRecording (tick^[n] (startStream s)))).chunkSequence = 0 ∧
      (startStream (stopRecording (tick^[n] (startStream s)))).isRecording = true ∧
      (startStream (stopRecording (tick^[n] (startStream s)))).mediaRecorder =
        some freshRecorder ∧
      (tick^[n] (startStream s)).timer = s.timer + n := by
  intro s n
  have hact : (startStream s).timerActive = true := rfl
  obtain ⟨h1, _, _, _, _⟩ := tick_iterate_active n (startStream s) hact
  have htimer : (tick^[n] (startStream s)).timer = s.timer + n := by
    rw [h1]; rfl
  have hstop : (stopRecording (tick^[n] (startStream s))).timer =
      (tick^[n] (startStream s)).timer := by
    unfold stopRecording
    cases (tick^[n] (startStream s)).mediaRecorder with
    | none => rfl
    | some r =>
      by_cases hst : r.state = RecState.inactive
      · simp [hst]
      · simp [hst]
  refine ⟨?_, rfl, rfl, rfl, htimer⟩
  show (stopRecording (tick^[n] (startStream s))).timer = s.timer + n
  rw [hstop, htimer]

/-! ## Configuration fault handling (C5) -/

/-- C5 counterexample: when `FOLDER_ID` is missing, the backend does report
immediately (HTTP 500, no drive call), but the frontend cannot distinguish
that response from a transient failure: draining a freshly created chunk
against such a server retries it and consumes its retry budget — after two
such responses the chunk has `retries = 2` and a second transfer attempt was
made, contradicting "the artifact is not retried for this condition". -/
theorem c5_counterexample :
    (uploadRoute ⟨none, true⟩ ⟨true, some "chunk_001.webm"⟩).1.status = 500 ∧
    (uploadRoute ⟨none, true⟩ ⟨true, some "chunk_001.webm"⟩).2 = false ∧
    attemptSucceeds (uploadRoute ⟨none, true⟩ ⟨true, some "chunk_001.webm"⟩).1 =
      false ∧
    drainQueue
        [EnvStep.attempt
           (attemptSucceeds (uploadRoute ⟨none, true⟩ ⟨true, some "chunk_001.webm"⟩).1),
         EnvStep.attempt
           (attemptSucceeds (uploadRoute ⟨none, true⟩ ⟨true, some "chunk_001.webm"⟩).1)]
        [(⟨5, 0⟩ : Chunk)] =
      ([Event.startAttempt 5, Event.retryWait 5 1 2000,
        Event.startAttempt 5, Event.retryWait 5 2 4000],
       [(⟨5, 2⟩ : Chunk)]) := by
  refine ⟨rfl, rfl, rfl, ?_⟩
  decide

/-- C5 as amended: a missing destination container is reported immediately by
the backend — HTTP 500 with no remote create call — but the frontend treats
the 500 like any transfer failure, so the artifact IS retried and its retry
budget IS consumed: an attempt against such a server increments the head
chunk's `retries` and schedules a backoff wait. -/
theorem c5_config_fault_retried :
    ∀ (req : UploadReq) (ok : Bool) (c : Chunk) (q : List Chunk)
      (env : List EnvStep),
      req.hasFile = true → c.retries < MAX_RETRIES →
      (uploadRoute ⟨none, ok⟩ req).1.status = 500 ∧
      (uploadRoute ⟨none, ok⟩ req).2 = false ∧
      attemptSucceeds (uploadRoute ⟨none, ok⟩ req).1 = false ∧
      drainQueue
          (EnvStep.attempt (attemptSucceeds (uploadRoute ⟨none, ok⟩ req).1) :: env)
          (c :: q) =
        (Event.startAttempt c.id ::
           Event.retryWait c.id (c.retries + 1) (backoffDelay (c.retries + 1)) ::
           (drainQueue env ({ c with retries := c.retries + 1 } :: q)).1,
         (drainQueue env ({ c with retries := c.retries + 1 } :: q)).2) := by
  intro req ok c q env hfile hr
  have h500 : uploadRoute ⟨none, ok⟩ req = (⟨500⟩, false) := by
    simp [uploadRoute, hfile]
  have hatt : attemptSucceeds (uploadRoute ⟨none, ok⟩ req).1 = false := by
    rw [h500]
    decide
  refine ⟨by rw [h500], by rw [h500], hatt, ?_⟩
  rw [hatt]
  simp [drainQueue, hr]

/-- Witness for `c5_config_fault_retried` on a fresh chunk. -/
theorem c5_config_fault_retried_witness :
    (uploadRoute ⟨none, true⟩ (⟨true, some "f.webm"⟩ : UploadReq)).1.status = 500 ∧
    (uploadRoute ⟨none, true⟩ (⟨true, some "f.webm"⟩ : UploadReq)).2 = false ∧
    attemptSucceeds (uploadRoute ⟨none, true⟩ (⟨true, some "f.webm"⟩ : UploadReq)).1 =
      false ∧
    drainQueue
        (EnvStep.attempt
          (attemptSucceeds
            (uploadRoute ⟨none, true⟩ (⟨true, some "f.webm"⟩ : UploadReq)).1) :: [])
        [(⟨5, 0⟩ : Chunk)] =
      (Event.startAttempt 5 ::
         Event.retryWait 5 (0 + 1) (backoffDelay (0 + 1)) ::
         (drainQueue [] [(⟨5, 0 + 1⟩ : Chunk)]).1,
       (drainQueue [] [(⟨5, 0 + 1⟩ : Chunk)]).2) :=
  c5_config_fault_retried ⟨true, some "f.webm"⟩ true ⟨5, 0⟩ [] [] rfl (by decide)

end Screen
